import Mathlib

/-!
Verification of the per-connection request/response engine of
`server-manager` (`src/client.go`, package `coms`).

The Go source is shallowly embedded: the correlation table
(`pendingCalls : sync.Map` holding capacity-one response channels) becomes
an association list from correlation id to channel buffer; the read loop's
response dispatch, the write loop's select branches, and the body of
`Call` become pure Lean functions over that state, with oracle parameters
standing for the outcomes of external effects (JSON marshalling, envelope
encoding, transport writes, handler results).
-/

namespace Coms

/-- Message type tag, `protocol.Req` or `protocol.Resp` (wire envelope of
src/client.go). -/
inductive MsgType
  | req
  | resp
deriving DecidableEq, Repr

/-- Wire envelope `protocol.Message`: correlation id, type, action and the
opaque payload bytes (modelled as a string). -/
structure Message where
  id : String
  type : MsgType
  action : String
  data : String
deriving DecidableEq, Repr

/-- One pending call's rendezvous slot: the buffer of the capacity-one
response channel `respCh` made in `Call` (src/client.go:222). -/
abbrev Slot := List Message

/-- The correlation table `pendingCalls : sync.Map`, as an association list
from correlation id to response-channel buffer. -/
abbrev CorrTable := List (String × Slot)

/-- `sync.Map.Load`: first binding of the key, if any. -/
def load : CorrTable → String → Option Slot
  | [], _ => none
  | (k, v) :: rest, key => if k = key then some v else load rest key

/-- `sync.Map.Store`: overwrite the binding of the key, or append it. -/
def store : CorrTable → String → Slot → CorrTable
  | [], key, v => [(key, v)]
  | (k, w) :: rest, key, v =>
      if k = key then (key, v) :: rest else (k, w) :: store rest key v

/-- `sync.Map.Delete`: drop every binding of the key. -/
def tblDelete : CorrTable → String → CorrTable
  | [], _ => []
  | (k, w) :: rest, key =>
      if k = key then tblDelete rest key else (k, w) :: tblDelete rest key

/-- Response dispatch of the read loop (src/client.go:100-107): a
`Resp`-typed message is looked up by its id; when a pending call holds that
id the message is sent into that call's channel (appended to its buffer);
otherwise the message is dropped. -/
def dispatchResp (tbl : CorrTable) (m : Message) : CorrTable :=
  match load tbl m.id with
  | some buf => store tbl m.id (buf ++ [m])
  | none => tbl

theorem load_store_self (t : CorrTable) (k : String) (v : Slot) :
    load (store t k v) k = some v := by
  induction t with
  | nil => simp [store, load]
  | cons p rest ih =>
    obtain ⟨a, b⟩ := p
    by_cases h : a = k
    · simp [store, load, h]
    · simp [store, load, h, ih]

theorem load_store_ne (t : CorrTable) (k : String) (v : Slot) (key : String)
    (h : k ≠ key) : load (store t k v) key = load t key := by
  induction t with
  | nil => simp [store, load, h]
  | cons p rest ih =>
    obtain ⟨a, b⟩ := p
    by_cases h2 : a = k
    · subst h2
      simp [store, load, h]
    · simp [store, load, h2, ih]

theorem load_delete_self (t : CorrTable) (k : String) :
    load (tblDelete t k) k = none := by
  induction t with
  | nil => simp [tblDelete, load]
  | cons p rest ih =>
    obtain ⟨a, b⟩ := p
    by_cases h : a = k
    · simp [tblDelete, h, ih]
    · simp [tblDelete, load, h, ih]

theorem delete_store_self (t : CorrTable) (k : String) (v : Slot) :
    tblDelete (store t k v) k = tblDelete t k := by
  induction t with
  | nil => simp [store, tblDelete]
  | cons p rest ih =>
    obtain ⟨a, b⟩ := p
    by_cases h : a = k
    · subst h
      simp [store, tblDelete]
    · simp [store, tblDelete, h, ih]

theorem delete_of_load_none (t : CorrTable) (k : String)
    (h : load t k = none) : tblDelete t k = t := by
  induction t with
  | nil => simp [tblDelete]
  | cons p rest ih =>
    obtain ⟨a, b⟩ := p
    by_cases h2 : a = k
    · subst h2
      simp [load] at h
    · simp [load, h2] at h
      simp [tblDelete, h2, ih h]

theorem load_mem (t : CorrTable) (key : String) (v : Slot)
    (h : load t key = some v) : ∃ p ∈ t, p.2 = v := by
  induction t with
  | nil => simp [load] at h
  | cons p rest ih =>
    obtain ⟨a, b⟩ := p
    by_cases h2 : a = key
    · simp [load, h2] at h
      exact ⟨(a, b), by simp, h⟩
    · simp [load, h2] at h
      obtain ⟨q, hq, hv⟩ := ih h
      exact ⟨q, by simp [hq], hv⟩

theorem load_dispatch_ne (t : CorrTable) (m : Message) (k : String)
    (h : m.id ≠ k) : load (dispatchResp t m) k = load t k := by
  unfold dispatchResp
  cases hl : load t m.id with
  | none => rfl
  | some buf => exact load_store_ne t m.id (buf ++ [m]) k h

theorem dispatch_of_load_none (t : CorrTable) (m : Message)
    (h : load t m.id = none) : dispatchResp t m = t := by
  unfold dispatchResp
  simp [h]

theorem foldl_dispatch_not_mem (ms : List Message) (t : CorrTable)
    (k : String) (h : k ∉ ms.map Message.id) :
    load (ms.foldl dispatchResp t) k = load t k := by
  induction ms generalizing t with
  | nil => rfl
  | cons m rest ih =>
    simp only [List.map_cons, List.mem_cons, not_or] at h
    simp only [List.foldl_cons]
    rw [ih _ h.2, load_dispatch_ne _ _ _ (fun he => h.1 he.symm)]

theorem foldl_dispatch_none (ms : List Message) (t : CorrTable) (k : String)
    (h : load t k = none) : load (ms.foldl dispatchResp t) k = none := by
  induction ms generalizing t with
  | nil => exact h
  | cons m rest ih =>
    simp only [List.foldl_cons]
    apply ih
    by_cases he : m.id = k
    · rw [dispatch_of_load_none t m (he ▸ h)]
      exact h
    · rw [load_dispatch_ne t m k he]
      exact h

theorem foldl_dispatch_delivers (ms : List Message) (t : CorrTable)
    (m : Message) (hm : m ∈ ms) (hnd : (ms.map Message.id).Nodup)
    (h0 : load t m.id = some []) :
    load (ms.foldl dispatchResp t) m.id = some [m] := by
  induction ms generalizing t with
  | nil => cases hm
  | cons m' rest ih =>
    simp only [List.map_cons, List.nodup_cons] at hnd
    rcases List.mem_cons.mp hm with rfl | hm'
    · simp only [List.foldl_cons]
      rw [foldl_dispatch_not_mem rest _ _ hnd.1]
      unfold dispatchResp
      simp [h0, load_store_self]
    · have hne : m'.id ≠ m.id := by
        intro he
        exact hnd.1 (he ▸ List.mem_map_of_mem Message.id hm')
      simp only [List.foldl_cons]
      exact ih (dispatchResp t m') hm' hnd.2
        (by rw [load_dispatch_ne _ _ _ hne]; exact h0)

/-- C1: for any batch of responses with pairwise distinct correlation ids
arriving in any order at a correlation table whose slots are all empty,
the read loop's dispatch delivers to the pending call registered under id
`m.id` exactly the one response `m` whose id matches it; a response whose
id has no pending call is dropped (the table gains no binding for it); and
a pending call none of the responses addresses receives nothing. -/
theorem c1_response_matching (tbl : CorrTable) (ms : List Message)
    (hnd : (ms.map Message.id).Nodup)
    (hemp : ∀ p ∈ tbl, p.2 = ([] : Slot)) :
    (∀ m ∈ ms, ∀ buf, load tbl m.id = some buf →
        load (ms.foldl dispatchResp tbl) m.id = some [m]) ∧
    (∀ k, load tbl k = none → load (ms.foldl dispatchResp tbl) k = none) ∧
    (∀ k, k ∉ ms.map Message.id →
        load (ms.foldl dispatchResp tbl) k = load tbl k) := by
  refine ⟨?_, ?_, ?_⟩
  · intro m hm buf hbuf
    have hb : buf = [] := by
      obtain ⟨p, hp, hv⟩ := load_mem tbl m.id buf hbuf
      exact hv ▸ hemp p hp
    exact foldl_dispatch_delivers ms tbl m hm hnd (hb ▸ hbuf)
  · intro k hk
    exact foldl_dispatch_none ms tbl k hk
  · intro k hk
    exact foldl_dispatch_not_mem ms tbl k hk

/-- Concrete response message used by the C1 witness. -/
def msgA : Message := ⟨"a", MsgType.resp, "actA", "da"⟩

/-- Concrete response message used by the C1 witness. -/
def msgB : Message := ⟨"b", MsgType.resp, "actB", "db"⟩

/-- Witness for C1: two pending calls "a" and "b"; the peer answers "b"
first, then "a"; each slot ends up holding exactly its own response. -/
theorem c1_response_matching_witness :
    load ([msgB, msgA].foldl dispatchResp [("a", []), ("b", [])]) "a"
      = some [msgA] ∧
    load ([msgB, msgA].foldl dispatchResp [("a", []), ("b", [])]) "b"
      = some [msgB] := by
  have h := c1_response_matching [("a", []), ("b", [])] [msgB, msgA]
    (by decide) (by decide)
  exact ⟨h.1 msgA (by simp [msgA, msgB]) [] (by decide),
         h.1 msgB (by simp [msgA, msgB]) [] (by decide)⟩

/-! ## C2: the capacity check of `Call` under concurrent invocations

`Call` (src/client.go:205-207, 222-224) first reads the atomic counter
(`pendingCnt.Load() >= int32(maxPendingCalls)`) and only later, after
marshalling, stores the channel and increments the counter
(`pendingCnt.Add(1)`). The load and the add are each atomic but the pair
is not: two concurrent callers can interleave. The model below splits the
admission section of each concurrent `Call` into its two atomic actions
and runs an explicit schedule. -/

/-- Where one concurrent `Call` invocation stands in its admission
section: before the counter check, past the check, past the
store-and-increment, or rejected by the check. -/
inductive CallPhase
  | start
  | passed
  | registered
  | rejected
deriving DecidableEq, Repr

/-- Shared counter plus the phase of each concurrent `Call` (call `i`'s
phase at index `i`). -/
structure AdmState where
  cnt : Int
  phases : List CallPhase
deriving DecidableEq, Repr

/-- An atomic action of one `Call`'s admission section: `check i` is call
`i`'s `pendingCnt.Load() >= int32(maxPendingCalls)` test; `enter i` is its
`pendingCalls.Store` plus `pendingCnt.Add(1)`. -/
inductive AdmAct
  | check (i : Nat)
  | enter (i : Nat)
deriving DecidableEq, Repr

/-- One atomic step of the admission section, as the Go code orders it: a
`check` at or above the maximum rejects the call with no mutation; a
`check` below it lets the call proceed; `enter` then increments the
counter unconditionally. -/
def admStep (maxP : Int) (s : AdmState) : AdmAct → AdmState
  | AdmAct.check i =>
      match s.phases.get? i with
      | some CallPhase.start =>
          if s.cnt ≥ maxP then ⟨s.cnt, s.phases.set i CallPhase.rejected⟩
          else ⟨s.cnt, s.phases.set i CallPhase.passed⟩
      | _ => s
  | AdmAct.enter i =>
      match s.phases.get? i with
      | some CallPhase.passed => ⟨s.cnt + 1, s.phases.set i CallPhase.registered⟩
      | _ => s

/-- Run a schedule of interleaved admission actions. -/
def admRun (maxP : Int) (s : AdmState) (acts : List AdmAct) : AdmState :=
  acts.foldl (admStep maxP) s

/-- C2 fails on the code: with `maxPendingCalls = 1` and two concurrent
`Call`s, the schedule check-check-enter-enter drives the pending counter
to 2, above the configured maximum — the capacity check and the increment
are not one atomic step, so the bound is not enforced under concurrency.
The at-capacity half of the claim does hold: a lone `check` at the
maximum rejects without touching counter or table. -/
theorem c2_counter_can_exceed_max :
    (admRun 1 ⟨0, [CallPhase.start, CallPhase.start]⟩
        [AdmAct.check 0, AdmAct.check 1, AdmAct.enter 0, AdmAct.enter 1]).cnt
      = 2 ∧ ¬ ((2 : Int) ≤ 1) ∧
    admStep 1 ⟨1, [CallPhase.start]⟩ (AdmAct.check 0)
      = ⟨1, [CallPhase.rejected]⟩ := by
  refine ⟨by decide, by decide, by decide⟩

/-! ## The body of `Call` (src/client.go:203-250) for C3 and C10

`callGo` threads the correlation table and the pending counter through
one `Call` invocation. Oracle parameters stand for the effects the code
performs through external libraries: `marshalOk` for `json.Marshal`,
`encodeOk` for `req.ToBytes`, and `outcome` for which arm of the final
select fires (response delivered to `respCh`, or `time.After` timeout).
The deferred cleanup (src/client.go:225-228) — `pendingCalls.Delete` and
`pendingCnt.Add(-1)` — runs on every return path after registration. -/

/-- A table or counter mutation performed by `Call` itself. -/
inductive TblOp
  | store (k : String)
  | del (k : String)
  | incr
  | decr
deriving DecidableEq, Repr

/-- Which arm of `Call`'s final select fires: a response arrives on the
call's channel, or the read-wait timer does. -/
inductive CallOutcome
  | delivered (resp : Message)
  | timedOut
deriving DecidableEq, Repr

/-- What one `Call` invocation leaves behind: the correlation table, the
pending counter, the returned response or error, and the ordered log of
the table/counter mutations the call performed. -/
structure CallResult where
  tbl : CorrTable
  cnt : Int
  resp : Option Message
  err : Option String
  ops : List TblOp
deriving DecidableEq, Repr

/-- One `Call(action, data)` invocation (src/client.go:203-250), given the
fresh correlation id the uuid generator returns. In order: the capacity
check (205-207); `json.Marshal` (209-213); channel registration and
counter increment (222-224); `req.ToBytes` (230-234); the select on
response versus timeout (239-248). In the delivered case the read loop
has dispatched the peer's response into the table while the call waited.
Every return path after registration runs the deferred delete/decrement. -/
def callGo (tbl : CorrTable) (cnt maxP : Int) (newId : String)
    (marshalOk encodeOk : Bool) (outcome : CallOutcome) : CallResult :=
  if cnt ≥ maxP then
    ⟨tbl, cnt, none, some "max pending calls exceeded", []⟩
  else if marshalOk = false then
    ⟨tbl, cnt, none, some "marshal error", []⟩
  else
    let tbl1 := store tbl newId []
    let opsIn : List TblOp := [TblOp.store newId, TblOp.incr]
    let opsOut : List TblOp := [TblOp.del newId, TblOp.decr]
    if encodeOk = false then
      ⟨tblDelete tbl1 newId, cnt + 1 - 1, none, some "encode error",
        opsIn ++ opsOut⟩
    else
      match outcome with
      | CallOutcome.delivered r =>
          ⟨tblDelete (dispatchResp tbl1 r) newId, cnt + 1 - 1, some r, none,
            opsIn ++ opsOut⟩
      | CallOutcome.timedOut =>
          ⟨tblDelete tbl1 newId, cnt + 1 - 1, none, some "timeout",
            opsIn ++ opsOut⟩

/-- C3: a `Call` that completes by delivery or by timeout performs exactly
one table delete of its id and exactly one counter decrement before
returning; afterwards its correlation id is absent from the table, the
counter is back to its pre-call value, and a response arriving later for
that id is dropped by the read loop without changing the table. -/
theorem c3_cleanup_exactly_once (tbl : CorrTable) (cnt maxP : Int)
    (newId : String) (outcome : CallOutcome) (late : Message)
    (hcap : cnt < maxP) (hfresh : load tbl newId = none)
    (hout : ∀ r, outcome = CallOutcome.delivered r → r.id = newId)
    (hlate : late.id = newId) :
    (callGo tbl cnt maxP newId true true outcome).ops.count (TblOp.del newId)
        = 1 ∧
    (callGo tbl cnt maxP newId true true outcome).ops.count TblOp.decr = 1 ∧
    load (callGo tbl cnt maxP newId true true outcome).tbl newId = none ∧
    (callGo tbl cnt maxP newId true true outcome).cnt = cnt ∧
    dispatchResp (callGo tbl cnt maxP newId true true outcome).tbl late
      = (callGo tbl cnt maxP newId true true outcome).tbl := by
  have hnc : ¬ cnt ≥ maxP := not_le.mpr hcap
  have htd : tblDelete (store tbl newId []) newId = tbl := by
    rw [delete_store_self, delete_of_load_none tbl newId hfresh]
  cases outcome with
  | delivered r =>
    have hr : r.id = newId := hout r rfl
    have hdisp : dispatchResp (store tbl newId []) r
        = store (store tbl newId []) newId [r] := by
      unfold dispatchResp
      rw [hr, load_store_self]
      simp [hr]
    have htbl : tblDelete (dispatchResp (store tbl newId []) r) newId = tbl := by
      rw [hdisp, delete_store_self, delete_store_self,
        delete_of_load_none tbl newId hfresh]
    simp only [callGo, hnc, if_false, Bool.true_eq_false, htbl]
    refine ⟨by simp [List.count_cons], by simp [List.count_cons], ?_, ?_, ?_⟩
    · simp [hfresh]
    · simp
    · simp [dispatch_of_load_none tbl late (hlate ▸ hfresh)]
  | timedOut =>
    simp only [callGo, hnc, if_false, Bool.true_eq_false, htd]
    refine ⟨by simp [List.count_cons], by simp [List.count_cons], ?_, ?_, ?_⟩
    · simp [hfresh]
    · simp
    · simp [dispatch_of_load_none tbl late (hlate ▸ hfresh)]

/-- Witness for C3: concrete timed-out call with id "u" on an empty table. -/
theorem c3_cleanup_exactly_once_witness :
    load (callGo [] 0 1 "u" true true CallOutcome.timedOut).tbl "u" = none ∧
    (callGo [] 0 1 "u" true true CallOutcome.timedOut).cnt = 0 := by
  have h := c3_cleanup_exactly_once [] 0 1 "u" CallOutcome.timedOut
    ⟨"u", MsgType.resp, "a", "d"⟩ (by decide) (by decide)
    (fun r hr => nomatch hr) (by decide)
  exact ⟨h.2.2.1, h.2.2.2.1⟩

/-- C10: a `Call` that fails locally before waiting returns an error and
leaks nothing. If `json.Marshal` fails the call returns with the table,
the counter, and the mutation log untouched; if encoding the built
request fails, the deferred cleanup still runs, so at return the table
has no binding for the call's id and the counter equals its pre-call
value. -/
theorem c10_local_failure_no_leak (tbl : CorrTable) (cnt maxP : Int)
    (newId : String) (encodeOk : Bool) (outcome : CallOutcome)
    (hcap : cnt < maxP) (hfresh : load tbl newId = none) :
    ((callGo tbl cnt maxP newId false encodeOk outcome).err.isSome = true ∧
     (callGo tbl cnt maxP newId false encodeOk outcome).tbl = tbl ∧
     (callGo tbl cnt maxP newId false encodeOk outcome).cnt = cnt ∧
     (callGo tbl cnt maxP newId false encodeOk outcome).ops = []) ∧
    ((callGo tbl cnt maxP newId true false outcome).err.isSome = true ∧
     load (callGo tbl cnt maxP newId true false outcome).tbl newId = none ∧
     (callGo tbl cnt maxP newId true false outcome).cnt = cnt) := by
  have hnc : ¬ cnt ≥ maxP := not_le.mpr hcap
  constructor
  · simp [callGo, hnc]
  · have htd : tblDelete (store tbl newId []) newId = tbl := by
      rw [delete_store_self, delete_of_load_none tbl newId hfresh]
    simp [callGo, hnc, htd, hfresh]

/-- Witness for C10: concrete marshal-failure and encode-failure calls
with id "u" on an empty table. -/
theorem c10_local_failure_no_leak_witness :
    (callGo [] 0 1 "u" false true CallOutcome.timedOut).ops = [] ∧
    load (callGo [] 0 1 "u" true false CallOutcome.timedOut).tbl "u" = none := by
  have h := c10_local_failure_no_leak [] 0 1 "u" true CallOutcome.timedOut
    (by decide) (by decide)
  exact ⟨h.1.2.2.2, h.2.2.1⟩

/-! ## The read loop (src/client.go:71-140)

One iteration of `readLoop` is driven by what `conn.ReadMessage` plus
`protocol.ToMessage` produce: a transport read error, a decode error, a
nil message, or a decoded envelope. The handler registry lookup
(`w.getHandler`) is an oracle function; `encodeOk` stands for
`resp.ToBytes` succeeding. Raising the close signal is `closeRaised`;
leaving the `for` loop (and hence running the deferred `s.Remove(c.id)`)
is `terminated`. -/

/-- What one read-loop iteration observes from the transport and decoder. -/
inductive RInEvent
  | readErr
  | decodeErr
  | nilMsg
  | msg (m : Message)
deriving DecidableEq, Repr

/-- Result of one read-loop iteration: the correlation table, the
messages enqueued on the outbound channel, whether the close signal was
raised, and whether the loop (and so the worker) terminated. -/
structure RStep where
  tbl : CorrTable
  out : List Message
  closeRaised : Bool
  terminated : Bool
deriving Repr

/-- Build the response envelope for a handled request
(src/client.go:122-127): the request's id, type `Resp`, the request's
action, and the handler's payload. -/
def buildResp (m : Message) (respData : String) : Message :=
  ⟨m.id, MsgType.resp, m.action, respData⟩

/-- One iteration of `readLoop` (src/client.go:78-138). A read error or a
decode error raises the close signal and exits the loop; a nil message is
logged and skipped; a `Resp` envelope is dispatched against the
correlation table; a `Req` envelope with no registered handler is logged
("empty handler") and skipped; a handler returning nil data, or a failed
response encode, raises the close signal and exits; otherwise the built
response is enqueued on `messageOut`. -/
def readStep (lookup : String → Option (Message → Option String))
    (encodeOk : Bool) (tbl : CorrTable) (ev : RInEvent) : RStep :=
  match ev with
  | RInEvent.readErr => ⟨tbl, [], true, true⟩
  | RInEvent.decodeErr => ⟨tbl, [], true, true⟩
  | RInEvent.nilMsg => ⟨tbl, [], false, false⟩
  | RInEvent.msg m =>
    if m.type = MsgType.resp then
      ⟨dispatchResp tbl m, [], false, false⟩
    else
      match lookup m.action with
      | none => ⟨tbl, [], false, false⟩
      | some h =>
        match h m with
        | none => ⟨tbl, [], true, true⟩
        | some d =>
          if encodeOk then ⟨tbl, [buildResp m d], false, false⟩
          else ⟨tbl, [], true, true⟩

/-- A whole run of `readLoop` over a list of iteration inputs: stops at the
first terminating iteration; `removes` counts how many times the worker's
deferred `s.Remove(c.id)` ran (1 when the loop exited, 0 while it still
blocks reading). -/
structure RRun where
  tbl : CorrTable
  out : List Message
  terminated : Bool
  removes : Nat
deriving Repr

/-- Run `readLoop` over successive iteration inputs until an iteration
terminates the loop; on termination the deferred `s.Remove(c.id)`
(src/client.go:73-76) runs once. -/
def readRun (lookup : String → Option (Message → Option String))
    (encodeOk : Bool) : CorrTable → List RInEvent → RRun
  | tbl, [] => ⟨tbl, [], false, 0⟩
  | tbl, ev :: rest =>
    let st := readStep lookup encodeOk tbl ev
    if st.terminated then ⟨st.tbl, st.out, true, 1⟩
    else
      let r := readRun lookup encodeOk st.tbl rest
      ⟨r.tbl, st.out ++ r.out, r.terminated, r.removes⟩

/-! ## The write loop (src/client.go:142-201)

One `select` iteration of `writeLoop` is driven by whichever channel is
ready: an outbound message (or the channel being closed), a ping signal,
or the close signal. `writeOk` stands for the success of the transport
write the branch performs. In the Go source the `break` statements of the
close branch (src/client.go:193, 196) break out of the `select` only, not
out of the `for`, so the close branch never terminates the loop. -/

/-- Which of the write loop's three sources fires, as in its `select`. -/
inductive WEvent
  | msg (payload : String)
  | msgClosed
  | ping
  | close
deriving DecidableEq, Repr

/-- A write the loop performs on the transport. -/
inductive WWrite
  | frame (payload : String)
  | pong
  | closeFrame
  | netConnClose
deriving DecidableEq, Repr

/-- Result of one `select` iteration of `writeLoop`: the transport writes
attempted, whether the close signal was raised, and whether the loop (and
worker) terminated. -/
structure WStep where
  writes : List WWrite
  closeRaised : Bool
  terminated : Bool
deriving DecidableEq, Repr

/-- One `select` iteration of `writeLoop` (src/client.go:146-200). An
outbound message is written as one frame; a write failure raises close
and returns. A closed outbound channel raises close and returns. A ping
signal writes one pong frame; failure raises close and returns. The
close signal writes the normal-closure frame and, if that write fails,
force-closes the underlying transport — but its `break` leaves only the
`select`, so in both cases the `for` loop continues. -/
def writeStep (ev : WEvent) (writeOk : Bool) : WStep :=
  match ev with
  | WEvent.msg p =>
      if writeOk then ⟨[WWrite.frame p], false, false⟩
      else ⟨[WWrite.frame p], true, true⟩
  | WEvent.msgClosed => ⟨[], true, true⟩
  | WEvent.ping =>
      if writeOk then ⟨[WWrite.pong], false, false⟩
      else ⟨[WWrite.pong], true, true⟩
  | WEvent.close =>
      if writeOk then ⟨[WWrite.closeFrame], false, false⟩
      else ⟨[WWrite.closeFrame, WWrite.netConnClose], false, false⟩

/-- A whole run of `writeLoop`: the transport writes in order, and how
many times the worker's deferred `s.Remove(c.id)` (src/client.go:144)
ran — 1 when some iteration terminated the loop, 0 while it still blocks
in the `select`. -/
structure WRun where
  writes : List WWrite
  removes : Nat
deriving DecidableEq, Repr

/-- Run `writeLoop` over successive ready events (each paired with whether
its transport write succeeds) until an iteration terminates the loop. -/
def writeRun : List (WEvent × Bool) → WRun
  | [] => ⟨[], 0⟩
  | (ev, ok) :: rest =>
    let st := writeStep ev ok
    if st.terminated then ⟨st.writes, 1⟩
    else
      let r := writeRun rest
      ⟨st.writes ++ r.writes, r.removes⟩

/-- The transport ping callback registered in `makeClient`
(src/client.go:54-57): it forwards the ping's payload to `pingCh` and
performs no transport write itself (it only moves the write deadline
forward). Returns the ping signals sent and the transport writes made. -/
def pingCallback (appData : String) : List String × List WWrite :=
  ([appData], [])

/-- C4 fails on the code: the `break` statements in `writeLoop`'s close
branch (src/client.go:193, 196) leave only the `select`, not the `for`,
so consuming a close signal does not terminate the worker — after writing
the close frame (successfully or not) the loop keeps selecting, a later
outbound message is still written to the transport, and a second close
signal produces a second close frame. -/
theorem c4_worker_survives_close :
    (writeStep WEvent.close true).terminated = false ∧
    (writeStep WEvent.close false).terminated = false ∧
    (writeRun [(WEvent.close, true), (WEvent.msg "x", true)]).writes
      = [WWrite.closeFrame, WWrite.frame "x"] ∧
    (writeRun [(WEvent.close, true), (WEvent.close, true)]).writes
      = [WWrite.closeFrame, WWrite.closeFrame] := by
  refine ⟨rfl, rfl, rfl, rfl⟩

/-- C5 fails on the code: both `readLoop` (src/client.go:73-76) and
`writeLoop` (src/client.go:144) defer `s.Remove(c.id)`, so a connection
whose two workers both terminate — here a malformed inbound frame kills
the read worker, and a later failed transport write kills the write
worker — deregisters itself twice, once per worker, not exactly once. -/
theorem c5_remove_runs_once_per_worker :
    (readRun (fun _ => none) true [] [RInEvent.decodeErr]).removes = 1 ∧
    (writeRun [(WEvent.close, true), (WEvent.msg "x", false)]).removes = 1 ∧
    (readRun (fun _ => none) true [] [RInEvent.decodeErr]).removes
      + (writeRun [(WEvent.close, true), (WEvent.msg "x", false)]).removes
      ≠ 1 := by
  refine ⟨rfl, rfl, by decide⟩

/-- C6: a handled inbound request whose handler succeeds makes the read
loop enqueue exactly one response envelope, and that envelope reuses the
request's correlation id and echoes its action string unchanged. -/
theorem c6_response_echoes_id_and_action
    (lookup : String → Option (Message → Option String)) (tbl : CorrTable)
    (m : Message) (h : Message → Option String) (d : String)
    (hreq : m.type = MsgType.req) (hl : lookup m.action = some h)
    (hd : h m = some d) :
    (readStep lookup true tbl (RInEvent.msg m)).out = [buildResp m d] ∧
    (buildResp m d).id = m.id ∧ (buildResp m d).action = m.action := by
  have hnr : ¬ m.type = MsgType.resp := by
    rw [hreq]
    exact fun hc => nomatch hc
  simp [readStep, hnr, hl, hd, buildResp]

/-- Concrete inbound request used by the C6 witness. -/
def reqEcho : Message := ⟨"r1", MsgType.req, "echo", "payload"⟩

/-- Witness for C6: an "echo" handler on a concrete request; the enqueued
response keeps id "r1" and action "echo". -/
theorem c6_response_echoes_id_and_action_witness :
    (readStep
        (fun a => if a = "echo" then some (fun m => some m.data) else none)
        true [] (RInEvent.msg reqEcho)).out = [buildResp reqEcho "payload"] ∧
    (buildResp reqEcho "payload").id = "r1" ∧
    (buildResp reqEcho "payload").action = "echo" := by
  have h := c6_response_echoes_id_and_action
    (fun a => if a = "echo" then some (fun m => some m.data) else none)
    [] reqEcho (fun m => some m.data) "payload" rfl (by simp [reqEcho]) rfl
  exact ⟨h.1, h.2.1, h.2.2⟩

/-- C7 fails on the code: on a request whose action has no registered
handler, `readLoop` (src/client.go:109-113) logs "empty handler" and
continues — it neither raises the close signal nor enqueues any response,
leaving the connection open and the caller unanswered, which is neither
of the claim's two permitted policies. -/
theorem c7_unknown_action_neither_policy :
    (readStep (fun _ => none) true []
        (RInEvent.msg ⟨"q1", MsgType.req, "nope", "x"⟩)).closeRaised = false ∧
    (readStep (fun _ => none) true []
        (RInEvent.msg ⟨"q1", MsgType.req, "nope", "x"⟩)).terminated = false ∧
    (readStep (fun _ => none) true []
        (RInEvent.msg ⟨"q1", MsgType.req, "nope", "x"⟩)).out = [] := by
  refine ⟨rfl, rfl, rfl⟩

/-- C7 amended: an inbound request whose action has no registered handler
is ignored — the read loop continues with the correlation table, close
signal and outbound queue untouched, the connection stays open, and no
response (error or otherwise) is produced for the caller. -/
theorem c7_unknown_action_ignored
    (lookup : String → Option (Message → Option String)) (encodeOk : Bool)
    (tbl : CorrTable) (m : Message)
    (hreq : m.type = MsgType.req) (hl : lookup m.action = none) :
    readStep lookup encodeOk tbl (RInEvent.msg m) = ⟨tbl, [], false, false⟩ := by
  have hnr : ¬ m.type = MsgType.resp := by
    rw [hreq]
    exact fun hc => nomatch hc
  simp [readStep, hnr, hl]

/-- Witness for C7's amended claim: a concrete unknown-action request
against an empty registry is skipped with nothing changed. -/
theorem c7_unknown_action_ignored_witness :
    readStep (fun _ => none) true [("a", [])]
        (RInEvent.msg ⟨"q2", MsgType.req, "nope", "x"⟩)
      = ⟨[("a", [])], [], false, false⟩ :=
  c7_unknown_action_ignored (fun _ => none) true [("a", [])]
    ⟨"q2", MsgType.req, "nope", "x"⟩ rfl rfl

/-- C8: a frame decoding to a nil message is skipped — the read loop
continues with nothing changed and no close raised — while a frame whose
decode fails is fatal: the close signal is raised and the worker
terminates. -/
theorem c8_nil_skipped_decode_fatal
    (lookup : String → Option (Message → Option String)) (encodeOk : Bool)
    (tbl : CorrTable) :
    readStep lookup encodeOk tbl RInEvent.nilMsg = ⟨tbl, [], false, false⟩ ∧
    (readStep lookup encodeOk tbl RInEvent.decodeErr).closeRaised = true ∧
    (readStep lookup encodeOk tbl RInEvent.decodeErr).terminated = true := by
  refine ⟨rfl, rfl, rfl⟩

/-- C9: the transport ping callback writes nothing itself and forwards
each ping through the ping channel; the write loop, sole writer of the
transport, answers `n` consecutive ping signals with exactly `n` pong
frames, one per ping and nothing interleaved. -/
theorem c9_each_ping_one_pong (appData : String) (n : Nat) :
    pingCallback appData = ([appData], []) ∧
    (writeRun (List.replicate n (WEvent.ping, true))).writes
      = List.replicate n WWrite.pong := by
  refine ⟨rfl, ?_⟩
  induction n with
  | zero => rfl
  | succ k ih =>
    simp [List.replicate_succ, writeRun, writeStep, ih]

end Coms
